import Mathlib

/-!
Shallow embedding of `packages/fuels-core/src/types/transaction_builders.rs`
(fuels-rs). Opaque chain datatypes (addresses, utxo ids, asset ids, nonces,
secret keys, tx pointers) are modelled as `Nat`; byte buffers as `List Nat`.
Machine integers are `Nat`, with `% 256` inserted exactly where the source
performs a `u8` cast or `u8` addition.
-/

set_option autoImplicit false

namespace TxBuilders

/-- A spendable coin (`types::coin::Coin`), with the fields read by this file:
`utxo_id`, `owner`, `amount`, `asset_id`. -/
structure Coin where
  utxo_id : Nat
  owner : Nat
  amount : Nat
  asset_id : Nat
  deriving DecidableEq

/-- A bridged message (`types::message::Message`), with the fields read by this
file: `sender`, `recipient`, `amount`, `nonce`, `data`. -/
structure Message where
  sender : Nat
  recipient : Nat
  amount : Nat
  nonce : Nat
  data : List Nat
  deriving DecidableEq

/-- `types::coin_type::CoinType`: a signed-spendable resource is either a coin
or a message. -/
inductive CoinType where
  | coin (c : Coin)
  | message (m : Message)

/-- `types::unresolved_bytes::UnresolvedBytes`: predicate input data is a
deferred computation from the final byte offset to the concrete bytes
(`data.resolve(offset)` in the source). -/
structure UnresolvedBytes where
  resolve : Nat → List Nat

/-- The declarative SDK input (`types::input::Input`), three variants. -/
inductive Input where
  | resourceSigned (resource : CoinType)
  | resourcePredicate (resource : CoinType) (code : List Nat) (data : UnresolvedBytes)
  | contract (utxo_id balance_root state_root tx_pointer contract_id : Nat)

/-- The native `fuel_tx::Input` variants produced by this file. Constructor
arguments follow the argument order of the `fuel_tx` constructor functions used
in the source (`coin_signed`, `message_coin_signed`, `message_data_signed`,
`coin_predicate`, `message_coin_predicate`, `message_data_predicate`,
`contract`). -/
inductive FuelInput where
  | coinSigned (utxo_id owner amount asset_id tx_pointer witness_index maturity : Nat)
  | messageCoinSigned (sender recipient amount nonce witness_index : Nat)
  | messageDataSigned (sender recipient amount nonce witness_index : Nat) (data : List Nat)
  | coinPredicate (utxo_id owner amount asset_id tx_pointer maturity predicate_gas_used : Nat)
      (code predicate_data : List Nat)
  | messageCoinPredicate (sender recipient amount nonce predicate_gas_used : Nat)
      (code predicate_data : List Nat)
  | messageDataPredicate (sender recipient amount nonce predicate_gas_used : Nat)
      (data code predicate_data : List Nat)
  | contract (utxo_id balance_root state_root tx_pointer contract_id : Nat)
  deriving DecidableEq

/-- Lookup in an association list, modelling `HashMap::get`. -/
def mapLookup : List (Nat × Nat) → Nat → Option Nat
  | [], _ => none
  | (k, v) :: rest, a => if k = a then some v else mapLookup rest a

/-- Insert-or-replace in an association list, modelling `HashMap::insert`. -/
def mapInsert : List (Nat × Nat) → Nat → Nat → List (Nat × Nat)
  | [], k, v => [(k, v)]
  | (k', v') :: rest, k, v =>
      if k' = k then (k, v) :: rest else (k', v') :: mapInsert rest k v

/-- The values stored in an association list. -/
def mapValues (m : List (Nat × Nat)) : List Nat := m.map Prod.snd

/-- `UnresolvedSignatures`: the pending-signature registry. The source's
`HashMap<Bech32Address, u64>` is modelled as an association list with
insert-or-replace semantics; `secret_keys` is the append-only key list. -/
structure UnresolvedSignatures where
  addr_idx_offset_map : List (Nat × Nat)
  secret_keys : List Nat

/-- The empty registry (`UnresolvedSignatures::default()`). -/
def UnresolvedSignatures.empty : UnresolvedSignatures := ⟨[], []⟩

/-- `TransactionBuilder::add_unresolved_signature` (macro-generated, identical
for both builder kinds), acting on the registry field it mutates: record the
current key-list length as the index for `owner`, then push the key. -/
def add_unresolved_signature (s : UnresolvedSignatures) (owner secret_key : Nat) :
    UnresolvedSignatures :=
  let index_offset := s.secret_keys.length
  { addr_idx_offset_map := mapInsert s.addr_idx_offset_map owner index_offset
    secret_keys := s.secret_keys ++ [secret_key] }

/-- A whole sequence of `add_unresolved_signature` calls starting from the
default (empty) registry. -/
def registerAll (pairs : List (Nat × Nat)) : UnresolvedSignatures :=
  pairs.foldl (fun s p => add_unresolved_signature s p.1 p.2) UnresolvedSignatures.empty

/-- Errors produced by the build pipeline. The source represents the first
three as `error!(InvalidData, msg)` with three distinct message strings; they
are modelled structurally, carrying the interpolated address. `dryRun` wraps an
opaque error value returned by the external `DryRunner` capability, propagated
unchanged by `?`. `arithmeticOverflow` models the unguarded `u64` subtraction
underflow in `set_script_gas_limit_to_gas_used` (a panic in checked builds). -/
inductive BuildError where
  | missingSignatureCoin (owner : Nat)
  | missingSignatureMessage (recipient : Nat)
  | tooManyWitnesses
  | dryRun (e : Nat)
  | arithmeticOverflow
  deriving DecidableEq

/-- True for the errors the source raises with kind `InvalidData`. -/
def BuildError.kindIsInvalidData : BuildError → Bool
  | .missingSignatureCoin _ => true
  | .missingSignatureMessage _ => true
  | .tooManyWitnesses => true
  | _ => false

/-- True for the two missing-signature errors of `resolve_signed_resource`. -/
def BuildError.isMissingSignature : BuildError → Bool
  | .missingSignatureCoin _ => true
  | .missingSignatureMessage _ => true
  | _ => false

/-- `fuel_tx::policies::Policies` as used here: four optional u64 values. -/
structure Policies where
  maxFee : Option Nat
  maturity : Option Nat
  gasPrice : Option Nat
  witnessLimit : Option Nat
  deriving DecidableEq

/-- Modelled from the spec: the collaborators this file consumes but whose code
is outside `src/` — the repository's `offsets` module (fixed serialized sizes
per input kind, plus the base script offset) and `constants` module
(`DEFAULT_SCRIPT_WITNESS_LIMIT`), the `fuel_types` padding helper
(`padded_len_usize`), and the `fuel_tx`/`fuel_crypto` crate functions
(`Policies::size_dynamic`, `Chargeable::max_gas`, `UniqueIdentifier::id`,
`Signature::sign`). Each is an abstract function/constant; every theorem below
holds for all instantiations. -/
structure Externals where
  coin_signed_data_offset : Nat
  message_signed_data_offset : Nat → Nat
  coin_predicate_data_offset : Nat → Nat
  message_predicate_data_offset : Nat → Nat → Nat
  contract_input_offset : Nat
  base_offset_script : Nat
  padded_len : Nat → Nat
  default_script_witness_limit : Nat
  policies_size_dynamic : Policies → Nat
  max_gas : List FuelInput → List Nat → Nat
  tx_id : List FuelInput → List Nat → Nat
  sign : Nat → Nat → List Nat

/-- `NetworkInfo`: consensus parameters reduced to the fields this file reads
(`max_gas_per_tx`, `chain_id`) plus `min_gas_price`. -/
structure NetworkInfo where
  max_gas_per_tx : Nat
  min_gas_price : Nat
  chain_id : Nat
  deriving DecidableEq

/-- The native `fuel_tx::Script` transaction, reduced to the fields this file
constructs and mutates. -/
structure Script where
  script_gas_limit : Nat
  script : List Nat
  script_data : List Nat
  policies : Policies
  inputs : List FuelInput
  outputs : List Nat
  witnesses : List (List Nat)
  deriving DecidableEq

/-- `Script::set_script_gas_limit`. -/
def Script.set_script_gas_limit (tx : Script) (g : Nat) : Script :=
  { tx with script_gas_limit := g }

/-- The SDK wrapper `ScriptTransaction { tx, is_using_predicates }`. -/
structure ScriptTransaction where
  tx : Script
  is_using_predicates : Bool
  deriving DecidableEq

/-- `ScriptTransactionBuilder`. The `gas_estimation_tolerance : f32` field is
only passed through, opaquely, to the external dry-run capability; it is
absorbed into the capability argument and carried as no data here. -/
structure ScriptTransactionBuilder where
  gas_price : Option Nat
  gas_limit : Option Nat
  witness_limit : Option Nat
  max_fee : Option Nat
  maturity : Nat
  script : List Nat
  script_data : List Nat
  inputs : List Input
  outputs : List Nat
  witnesses : List (List Nat)
  network_info : NetworkInfo
  unresolved_signatures : UnresolvedSignatures

/-- `create_coin_input`: a signed native coin input with default tx pointer and
zero maturity. -/
def create_coin_input (coin : Coin) (witness_index : Nat) : FuelInput :=
  .coinSigned coin.utxo_id coin.owner coin.amount coin.asset_id 0 witness_index 0

/-- `create_coin_message_input`: empty `data` selects the coin-like variant,
non-empty the data-bearing one. -/
def create_coin_message_input (message : Message) (witness_index : Nat) : FuelInput :=
  if message.data.isEmpty then
    .messageCoinSigned message.sender message.recipient message.amount message.nonce
      witness_index
  else
    .messageDataSigned message.sender message.recipient message.amount message.nonce
      witness_index message.data

/-- `create_coin_predicate`. -/
def create_coin_predicate (coin : Coin) (asset_id : Nat) (code predicate_data : List Nat) :
    FuelInput :=
  .coinPredicate coin.utxo_id coin.owner coin.amount asset_id 0 0 0 code predicate_data

/-- `create_coin_message_predicate`: empty `data` selects the coin-like
variant, non-empty the data-bearing one. -/
def create_coin_message_predicate (message : Message) (code predicate_data : List Nat) :
    FuelInput :=
  if message.data.isEmpty then
    .messageCoinPredicate message.sender message.recipient message.amount message.nonce 0
      code predicate_data
  else
    .messageDataPredicate message.sender message.recipient message.amount message.nonce 0
      message.data code predicate_data

/-- `resolve_signed_resource`. The source first advances the offset, then looks
the owning address up in the registry; the witness index is computed with `u8`
arithmetic: `num_witnesses + *witness_idx_offset as u8` (the `as u8` cast and
the `u8` addition are both `% 256`). Returns the result together with the
updated offset (the offset advances even on the error path, as in the source,
where `*data_offset += ..` precedes the lookup). -/
def resolve_signed_resource (ext : Externals) (resource : CoinType) (data_offset : Nat)
    (num_witnesses : Nat) (unresolved_signatures : UnresolvedSignatures) :
    Except BuildError FuelInput × Nat :=
  match resource with
  | .coin coin =>
      let data_offset := data_offset + ext.coin_signed_data_offset
      match mapLookup unresolved_signatures.addr_idx_offset_map coin.owner with
      | none => (.error (.missingSignatureCoin coin.owner), data_offset)
      | some witness_idx_offset =>
          (.ok (create_coin_input coin
            ((num_witnesses + witness_idx_offset % 256) % 256)), data_offset)
  | .message message =>
      let data_offset := data_offset + ext.message_signed_data_offset message.data.length
      match mapLookup unresolved_signatures.addr_idx_offset_map message.recipient with
      | none => (.error (.missingSignatureMessage message.recipient), data_offset)
      | some witness_idx_offset =>
          (.ok (create_coin_message_input message
            ((num_witnesses + witness_idx_offset % 256) % 256)), data_offset)

/-- `resolve_predicate_resource`: advance by the predicate header size, resolve
the deferred data at the now-current offset, advance by the resolved length. -/
def resolve_predicate_resource (ext : Externals) (resource : CoinType) (code : List Nat)
    (data : UnresolvedBytes) (data_offset : Nat) : Except BuildError FuelInput × Nat :=
  match resource with
  | .coin coin =>
      let data_offset := data_offset + ext.coin_predicate_data_offset code.length
      let resolved := data.resolve data_offset
      let data_offset := data_offset + resolved.length
      (.ok (create_coin_predicate coin coin.asset_id code resolved), data_offset)
  | .message message =>
      let data_offset :=
        data_offset + ext.message_predicate_data_offset message.data.length code.length
      let resolved := data.resolve data_offset
      let data_offset := data_offset + resolved.length
      (.ok (create_coin_message_predicate message code resolved), data_offset)

/-- One step of `resolve_fuel_inputs`: the per-input `match` of the source,
returning the resolved input (or error) and the updated offset. -/
def resolveInput (ext : Externals) (num_witnesses : Nat)
    (unresolved_signatures : UnresolvedSignatures) (input : Input) (data_offset : Nat) :
    Except BuildError FuelInput × Nat :=
  match input with
  | .resourceSigned resource =>
      resolve_signed_resource ext resource data_offset num_witnesses unresolved_signatures
  | .resourcePredicate resource code data =>
      resolve_predicate_resource ext resource code data data_offset
  | .contract u br sr tp cid =>
      (.ok (FuelInput.contract u br sr tp cid), data_offset + ext.contract_input_offset)

/-- `resolve_fuel_inputs`: walk the inputs in order, threading the offset;
`collect::<Result<Vec<_>>>` short-circuits at the first error, returning no
list at all. -/
def resolve_fuel_inputs (ext : Externals) (inputs : List Input) (data_offset : Nat)
    (num_witnesses : Nat) (unresolved_signatures : UnresolvedSignatures) :
    Except BuildError (List FuelInput) :=
  match inputs with
  | [] => .ok []
  | input :: rest =>
      match resolveInput ext num_witnesses unresolved_signatures input data_offset with
      | (.error e, _) => .error e
      | (.ok fuelInput, data_offset') =>
          match resolve_fuel_inputs ext rest data_offset' num_witnesses
              unresolved_signatures with
          | .error e => .error e
          | .ok rest' => .ok (fuelInput :: rest')

/-- The sequence of intermediate offsets the resolver threads through an input
list: entry `i` is the accumulator value after resolving input `i`. -/
def offsetTrace (ext : Externals) (num_witnesses : Nat)
    (unresolved_signatures : UnresolvedSignatures) :
    List Input → Nat → List Nat
  | [], _ => []
  | input :: rest, data_offset =>
      let d' := (resolveInput ext num_witnesses unresolved_signatures input data_offset).2
      d' :: offsetTrace ext num_witnesses unresolved_signatures rest d'

/-- The temporary funding input pushed in `set_script_gas_limit_to_gas_used`:
`FuelInput::coin_signed(default, default, 1_000_000_000, default, default, 0, 0)`. -/
def tempFundingInput : FuelInput := .coinSigned 0 0 1000000000 0 0 0 0

/-- The transaction handed to the dry-run capability: provisional gas limit
`max_gas_per_tx / 2 - (tx.max_gas + 1)` and the temporary funding input pushed
onto the inputs. (The caller checks that the subtraction does not underflow;
here the subtraction is `Nat` truncated but only reached guarded.) -/
def dryRunTx (ext : Externals) (network_info : NetworkInfo) (tx : Script) : Script :=
  { tx with
    script_gas_limit :=
      network_info.max_gas_per_tx / 2 - (ext.max_gas tx.inputs tx.script + 1)
    inputs := tx.inputs ++ [tempFundingInput] }

/-- `tx.inputs_mut().pop()`: drop the last input. -/
def Script.withPoppedInput (tx : Script) : Script :=
  { tx with inputs := tx.inputs.dropLast }

/-- `set_script_gas_limit_to_gas_used`: set the provisional limit, push the
temporary funding input, dry-run, pop the temporary input, set the limit to the
reported usage. The source's `u64` subtraction
`(max_gas_per_tx / 2) - (tx.max_gas(..) + 1)` is unguarded; its underflow
(a panic in checked builds) is modelled as `BuildError.arithmeticOverflow`.
A dry-run error propagates via `?` before the pop, so no transaction is
produced on that path. -/
def set_script_gas_limit_to_gas_used (ext : Externals)
    (provider : Script → Except Nat Nat) (network_info : NetworkInfo) (tx : Script) :
    Except BuildError Script :=
  let max_gas := ext.max_gas tx.inputs tx.script + 1
  if network_info.max_gas_per_tx / 2 < max_gas then
    .error .arithmeticOverflow
  else
    match provider (dryRunTx ext network_info tx) with
    | .error e => .error (.dryRun e)
    | .ok gas_used =>
        .ok (((dryRunTx ext network_info tx).set_script_gas_limit gas_used).withPoppedInput)

/-- `num_witnesses` (macro-generated): error when explicit witnesses plus
pending keys exceed 256, otherwise the explicit count as a `u8` (`as u8` is
`% 256`). -/
def num_witnesses (b : ScriptTransactionBuilder) : Except BuildError Nat :=
  let n := b.witnesses.length
  if n + b.unresolved_signatures.secret_keys.length > 256 then
    .error .tooManyWitnesses
  else
    .ok (n % 256)

/-- `is_using_predicates` (macro-generated). -/
def is_using_predicates (b : ScriptTransactionBuilder) : Bool :=
  b.inputs.any fun input =>
    match input with
    | .resourcePredicate _ _ _ => true
    | _ => false

/-- `create_dry_run_witnesses`: one default (empty) witness per explicit
witness and per registry map entry, at least one. -/
def create_dry_run_witnesses (b : ScriptTransactionBuilder) (num_witnesses : Nat) :
    List (List Nat) :=
  List.replicate
    (max (num_witnesses + b.unresolved_signatures.addr_idx_offset_map.length) 1) []

/-- `generate_shared_fuel_policies` (macro-generated): MaxFee and GasPrice from
the builder (GasPrice defaulting to the network minimum), Maturity always
present. -/
def generate_shared_fuel_policies (b : ScriptTransactionBuilder) : Policies :=
  { maxFee := b.max_fee
    maturity := some b.maturity
    gasPrice := b.gas_price.or (some b.network_info.min_gas_price)
    witnessLimit := none }

/-- The policies of a script build: the shared policies with WitnessLimit set
to the builder's value or the default script witness limit. -/
def scriptPolicies (ext : Externals) (b : ScriptTransactionBuilder) : Policies :=
  { generate_shared_fuel_policies b with
    witnessLimit := b.witness_limit.or (some ext.default_script_witness_limit) }

/-- `generate_missing_witnesses`: sign the transaction id once per registered
secret key, in registry (insertion) order. -/
def generate_missing_witnesses (ext : Externals) (id : Nat)
    (unresolved_signatures : UnresolvedSignatures) : List (List Nat) :=
  unresolved_signatures.secret_keys.map fun secret_key => ext.sign secret_key id

/-- `ScriptTransactionBuilder::resolve_fuel_tx_provider`: assemble the native
script transaction (inputs resolved at `base_offset + policies.size_dynamic()`,
dry-run placeholder witnesses), pick the gas limit (zero for empty script, the
caller's explicit value, or the dry-run estimate), then overwrite the witnesses
with the explicit ones followed by the generated signatures. -/
def resolve_fuel_tx_provider (ext : Externals) (provider : Script → Except Nat Nat)
    (b : ScriptTransactionBuilder) (base_offset : Nat) (num_witnesses : Nat) :
    Except BuildError Script :=
  let policies := scriptPolicies ext b
  let has_no_code := b.script.isEmpty
  let dry_run_witnesses := create_dry_run_witnesses b num_witnesses
  match resolve_fuel_inputs ext b.inputs (base_offset + ext.policies_size_dynamic policies)
      num_witnesses b.unresolved_signatures with
  | .error e => .error e
  | .ok fuelInputs =>
      let tx : Script :=
        { script_gas_limit := 0
          script := b.script
          script_data := b.script_data
          policies := policies
          inputs := fuelInputs
          outputs := b.outputs
          witnesses := dry_run_witnesses }
      let afterGas : Except BuildError Script :=
        if has_no_code then
          .ok (tx.set_script_gas_limit 0)
        else
          match b.gas_limit with
          | some gas_limit => .ok (tx.set_script_gas_limit gas_limit)
          | none => set_script_gas_limit_to_gas_used ext provider b.network_info tx
      match afterGas with
      | .error e => .error e
      | .ok tx' =>
          let missing_witnesses :=
            generate_missing_witnesses ext (ext.tx_id tx'.inputs tx'.script)
              b.unresolved_signatures
          .ok { tx' with witnesses := b.witnesses ++ missing_witnesses }

/-- `ScriptTransactionBuilder::base_offset`. -/
def base_offset (ext : Externals) (b : ScriptTransactionBuilder) : Nat :=
  ext.base_offset_script + ext.padded_len b.script_data.length
    + ext.padded_len b.script.length

/-- `ScriptTransactionBuilder::build`: predicate flag, base offset, the witness
count check, then `resolve_fuel_tx_provider`. -/
def build (ext : Externals) (provider : Script → Except Nat Nat)
    (b : ScriptTransactionBuilder) : Except BuildError ScriptTransaction :=
  let isUsingPredicates := is_using_predicates b
  let baseOffset := if isUsingPredicates then base_offset ext b else 0
  match num_witnesses b with
  | .error e => .error e
  | .ok nw =>
      match resolve_fuel_tx_provider ext provider b baseOffset nw with
      | .error e => .error e
      | .ok tx => .ok { tx := tx, is_using_predicates := isUsingPredicates }

/-- The owning address of a declarative signed input: the coin's owner or the
message's recipient (the key looked up by `resolve_signed_resource`). -/
def Input.signedOwner : Input → Option Nat
  | .resourceSigned (.coin c) => some c.owner
  | .resourceSigned (.message m) => some m.recipient
  | _ => none

/-- The witness index carried by a native signed input. -/
def FuelInput.witnessIndexOf : FuelInput → Option Nat
  | .coinSigned _ _ _ _ _ w _ => some w
  | .messageCoinSigned _ _ _ _ w => some w
  | .messageDataSigned _ _ _ _ w _ => some w
  | _ => none

/-- The owning address of the declarative input at position `j`, if signed. -/
def signedOwnerAt (inputs : List Input) (j : Nat) : Option Nat :=
  (inputs.get? j).bind Input.signedOwner

/-- The witness index of the native input at position `j`, if signed. -/
def witnessIndexAt (inputs : List FuelInput) (j : Nat) : Option Nat :=
  (inputs.get? j).bind FuelInput.witnessIndexOf

@[simp] theorem mapValues_nil : mapValues [] = [] := rfl

@[simp] theorem mapValues_cons (k v : Nat) (rest : List (Nat × Nat)) :
    mapValues ((k, v) :: rest) = v :: mapValues rest := rfl

theorem mapLookup_mapInsert_self (m : List (Nat × Nat)) (k v : Nat) :
    mapLookup (mapInsert m k v) k = some v := by
  induction m with
  | nil => simp [mapInsert, mapLookup]
  | cons p rest ih =>
      obtain ⟨k', v'⟩ := p
      by_cases h : k' = k
      · simp [mapInsert, h, mapLookup]
      · simp [mapInsert, h, mapLookup, ih]

theorem mapLookup_mapInsert_ne (m : List (Nat × Nat)) (k v a : Nat) (h : a ≠ k) :
    mapLookup (mapInsert m k v) a = mapLookup m a := by
  induction m with
  | nil => simp [mapInsert, mapLookup, Ne.symm h]
  | cons p rest ih =>
      obtain ⟨k', v'⟩ := p
      by_cases hk : k' = k
      · subst hk
        simp [mapInsert, mapLookup, Ne.symm h]
      · by_cases ha : k' = a <;> simp [mapInsert, hk, mapLookup, ha, ih, h]

theorem mapLookup_mem_values (m : List (Nat × Nat)) (a k : Nat)
    (h : mapLookup m a = some k) : k ∈ mapValues m := by
  induction m with
  | nil => simp [mapLookup] at h
  | cons p rest ih =>
      obtain ⟨k', v'⟩ := p
      by_cases hk : k' = a
      · simp [mapLookup, hk] at h
        simp [h]
      · simp [mapLookup, hk] at h
        simp [ih h]

theorem mem_values_mapInsert (m : List (Nat × Nat)) (k v w : Nat)
    (h : w ∈ mapValues (mapInsert m k v)) : w = v ∨ w ∈ mapValues m := by
  induction m with
  | nil => simpa [mapInsert] using h
  | cons p rest ih =>
      obtain ⟨k', v'⟩ := p
      by_cases hk : k' = k
      · simp [mapInsert, hk] at h ⊢
        tauto
      · simp [mapInsert, hk] at h ⊢
        rcases h with h | h
        · tauto
        · rcases ih h with h' | h' <;> tauto

theorem nodup_values_mapInsert (m : List (Nat × Nat)) (k v : Nat)
    (hlt : ∀ w ∈ mapValues m, w < v) (hnd : (mapValues m).Nodup) :
    (mapValues (mapInsert m k v)).Nodup := by
  induction m with
  | nil => simp [mapInsert]
  | cons p rest ih =>
      obtain ⟨k', v'⟩ := p
      simp only [mapValues_cons] at hnd hlt
      rw [List.nodup_cons] at hnd
      have hhead : v' < v := hlt v' (by simp)
      have hrest : ∀ w ∈ mapValues rest, w < v := fun w hw => hlt w (by simp [hw])
      by_cases hk : k' = k
      · simp only [mapInsert]
        rw [if_pos hk, mapValues_cons, List.nodup_cons]
        refine ⟨fun hmem => ?_, hnd.2⟩
        exact absurd rfl (Nat.ne_of_lt (hrest v hmem)).symm
      · simp only [mapInsert]
        rw [if_neg hk, mapValues_cons, List.nodup_cons]
        refine ⟨fun hmem => ?_, ih hrest hnd.2⟩
        rcases mem_values_mapInsert rest k v v' hmem with h' | h'
        · exact absurd h' (Nat.ne_of_lt hhead)
        · exact hnd.1 h'

theorem length_mapInsert_le (m : List (Nat × Nat)) (k v : Nat) :
    (mapInsert m k v).length ≤ m.length + 1 := by
  induction m with
  | nil => simp [mapInsert]
  | cons p rest ih =>
      obtain ⟨k', v'⟩ := p
      by_cases hk : k' = k
      · simp [mapInsert, hk]
      · simp [mapInsert, hk]
        omega

theorem length_mapInsert_of_not_mem (m : List (Nat × Nat)) (k v : Nat)
    (h : mapLookup m k = none) : (mapInsert m k v).length = m.length + 1 := by
  induction m with
  | nil => simp [mapInsert]
  | cons p rest ih =>
      obtain ⟨k', v'⟩ := p
      by_cases hk : k' = k
      · simp [mapLookup, hk] at h
      · simp [mapLookup, hk] at h
        simp [mapInsert, hk, ih h]

/-- The registry invariant maintained by `add_unresolved_signature`: every
stored index is below the key-list length, indices are pairwise distinct, and
there are at most as many map entries as keys. -/
def RegistryInv (s : UnresolvedSignatures) : Prop :=
  (∀ w ∈ mapValues s.addr_idx_offset_map, w < s.secret_keys.length)
    ∧ (mapValues s.addr_idx_offset_map).Nodup
    ∧ s.addr_idx_offset_map.length ≤ s.secret_keys.length

theorem registryInv_add (s : UnresolvedSignatures) (a key : Nat) (h : RegistryInv s) :
    RegistryInv (add_unresolved_signature s a key) := by
  obtain ⟨hlt, hnd, hlen⟩ := h
  refine ⟨?_, ?_, ?_⟩
  · intro w hw
    rcases mem_values_mapInsert _ _ _ _ hw with h' | h'
    · simp [add_unresolved_signature, h']
    · have := hlt w h'
      simp [add_unresolved_signature]
      omega
  · exact nodup_values_mapInsert _ _ _ hlt hnd
  · have := length_mapInsert_le s.addr_idx_offset_map a s.secret_keys.length
    simp [add_unresolved_signature]
    omega

theorem registryInv_foldl (pairs : List (Nat × Nat)) :
    ∀ s : UnresolvedSignatures, RegistryInv s →
      RegistryInv (pairs.foldl (fun s p => add_unresolved_signature s p.1 p.2) s) := by
  induction pairs with
  | nil => intro s h; simpa using h
  | cons p rest ih =>
      intro s h
      exact ih _ (registryInv_add s p.1 p.2 h)

theorem registerAll_inv (pairs : List (Nat × Nat)) : RegistryInv (registerAll pairs) := by
  refine registryInv_foldl pairs UnresolvedSignatures.empty ?_
  refine ⟨?_, ?_, ?_⟩ <;> simp [UnresolvedSignatures.empty]

theorem registerAll_lookup_lt (pairs : List (Nat × Nat)) (a k : Nat)
    (h : mapLookup (registerAll pairs).addr_idx_offset_map a = some k) :
    k < (registerAll pairs).secret_keys.length :=
  (registerAll_inv pairs).1 k (mapLookup_mem_values _ a k h)

theorem registerAll_length_eq_aux (pairs : List (Nat × Nat)) :
    ∀ s : UnresolvedSignatures,
      (∀ a ∈ pairs.map Prod.fst, mapLookup s.addr_idx_offset_map a = none) →
      (pairs.map Prod.fst).Nodup →
      s.addr_idx_offset_map.length = s.secret_keys.length →
      (pairs.foldl (fun s p => add_unresolved_signature s p.1 p.2) s).addr_idx_offset_map.length
        = (pairs.foldl (fun s p => add_unresolved_signature s p.1 p.2) s).secret_keys.length := by
  induction pairs with
  | nil => intro s _ _ h; simpa using h
  | cons p rest ih =>
      intro s hnone hnd hlen
      simp only [List.foldl_cons]
      rw [List.map_cons, List.nodup_cons] at hnd
      have hcons := hnd
      refine ih _ ?_ hcons.2 ?_
      · intro a ha
        have hne : a ≠ p.1 := fun heq => hcons.1 (heq ▸ ha)
        rw [add_unresolved_signature]
        simpa [mapLookup_mapInsert_ne _ _ _ _ hne] using hnone a (by simp [ha])
      · have h0 := hnone p.1 (by simp)
        simp [add_unresolved_signature, length_mapInsert_of_not_mem _ _ _ h0, hlen]

/-- C8 — counterexample. The claim asserts that after every
`add_unresolved_signature` call sequence, including ones registering the same
address twice, the number of map entries equals the number of stored secret
keys. Registering the address `1` twice stores two keys but leaves a single
map entry (the second `HashMap::insert` overwrites the first), so the claimed
equality fails. -/
theorem c8_counterexample :
    ¬ ((registerAll [(1, 10), (1, 11)]).addr_idx_offset_map.length
        = (registerAll [(1, 10), (1, 11)]).secret_keys.length) := by
  decide

theorem length_mapInsert_of_mem (m : List (Nat × Nat)) (k v : Nat)
    (h : mapLookup m k ≠ none) : (mapInsert m k v).length = m.length := by
  induction m with
  | nil => simp [mapLookup] at h
  | cons p rest ih =>
      obtain ⟨k', v'⟩ := p
      by_cases hk : k' = k
      · simp [mapInsert, hk]
      · simp only [mapLookup, hk, if_neg hk] at h
        simp [mapInsert, hk, ih h]

theorem secret_keys_foldl (pairs : List (Nat × Nat)) :
    ∀ s : UnresolvedSignatures,
      (pairs.foldl (fun s p => add_unresolved_signature s p.1 p.2)
          s).secret_keys.length
        = s.secret_keys.length + pairs.length := by
  induction pairs with
  | nil => intro s; simp
  | cons p rest ih =>
      intro s
      simp only [List.foldl_cons, List.length_cons]
      rw [ih]
      simp [add_unresolved_signature]
      omega

theorem map_length_le_foldl (pairs : List (Nat × Nat)) :
    ∀ s : UnresolvedSignatures,
      (pairs.foldl (fun s p => add_unresolved_signature s p.1 p.2)
          s).addr_idx_offset_map.length
        ≤ s.addr_idx_offset_map.length + pairs.length := by
  induction pairs with
  | nil => intro s; simp
  | cons p rest ih =>
      intro s
      simp only [List.foldl_cons, List.length_cons]
      have h1 := ih (add_unresolved_signature s p.1 p.2)
      have h2 : (add_unresolved_signature s p.1 p.2).addr_idx_offset_map.length
          ≤ s.addr_idx_offset_map.length + 1 := by
        simpa [add_unresolved_signature] using
          length_mapInsert_le s.addr_idx_offset_map p.1 s.secret_keys.length
      omega

theorem map_length_lt_foldl (pairs : List (Nat × Nat)) :
    ∀ s : UnresolvedSignatures,
      ((∃ a ∈ pairs.map Prod.fst, mapLookup s.addr_idx_offset_map a ≠ none)
        ∨ ¬ (pairs.map Prod.fst).Nodup) →
      (pairs.foldl (fun s p => add_unresolved_signature s p.1 p.2)
          s).addr_idx_offset_map.length
        < s.addr_idx_offset_map.length + pairs.length := by
  induction pairs with
  | nil =>
      intro s h
      rcases h with ⟨a, ha, _⟩ | hnd
      · simp at ha
      · simp at hnd
  | cons p rest ih =>
      intro s h
      simp only [List.foldl_cons, List.length_cons]
      by_cases hmem : mapLookup s.addr_idx_offset_map p.1 = none
      · have hnext : (∃ a ∈ rest.map Prod.fst,
            mapLookup (add_unresolved_signature s p.1 p.2).addr_idx_offset_map a
              ≠ none)
            ∨ ¬ (rest.map Prod.fst).Nodup := by
          rcases h with ⟨a, ha, hne⟩ | hnd
          · simp only [List.map_cons, List.mem_cons] at ha
            rcases ha with rfl | ha
            · exact absurd hmem hne
            · left
              refine ⟨a, ha, ?_⟩
              by_cases hap : a = p.1
              · subst hap
                exact absurd hmem hne
              · simpa [add_unresolved_signature,
                  mapLookup_mapInsert_ne _ _ _ _ hap] using hne
          · by_cases hap : p.1 ∈ rest.map Prod.fst
            · left
              exact ⟨p.1, hap, by
                simp [add_unresolved_signature, mapLookup_mapInsert_self]⟩
            · right
              intro hcon
              apply hnd
              rw [List.map_cons, List.nodup_cons]
              exact ⟨hap, hcon⟩
        have h1 := ih (add_unresolved_signature s p.1 p.2) hnext
        have h2 : (add_unresolved_signature s p.1 p.2).addr_idx_offset_map.length
            = s.addr_idx_offset_map.length + 1 := by
          simpa [add_unresolved_signature] using
            length_mapInsert_of_not_mem s.addr_idx_offset_map p.1
              s.secret_keys.length hmem
        omega
      · have h1 := map_length_le_foldl rest (add_unresolved_signature s p.1 p.2)
        have h2 : (add_unresolved_signature s p.1 p.2).addr_idx_offset_map.length
            = s.addr_idx_offset_map.length := by
          simpa [add_unresolved_signature] using
            length_mapInsert_of_mem s.addr_idx_offset_map p.1
              s.secret_keys.length hmem
        omega

theorem exists_unmapped_index (l : List Nat) (n : Nat) (hnd : l.Nodup)
    (hl : l.length < n) : ∃ i, i < n ∧ i ∉ l := by
  by_contra hcon
  push_neg at hcon
  have hsub : Finset.range n ⊆ l.toFinset := fun i hi =>
    List.mem_toFinset.mpr (hcon i (Finset.mem_range.mp hi))
  have hcard := Finset.card_le_card hsub
  rw [Finset.card_range] at hcard
  have hc2 : l.toFinset.card = l.length := List.toFinset_card_of_nodup hnd
  omega

theorem registerAll_keys_length (pairs : List (Nat × Nat)) :
    (registerAll pairs).secret_keys.length = pairs.length := by
  have := secret_keys_foldl pairs UnresolvedSignatures.empty
  simpa [registerAll, UnresolvedSignatures.empty] using this

theorem registerAll_map_length_lt (pairs : List (Nat × Nat))
    (hnd : ¬ (pairs.map Prod.fst).Nodup) :
    (registerAll pairs).addr_idx_offset_map.length
      < (registerAll pairs).secret_keys.length := by
  have h1 := map_length_lt_foldl pairs UnresolvedSignatures.empty (Or.inr hnd)
  have h2 := registerAll_keys_length pairs
  have heq : pairs.foldl (fun s p => add_unresolved_signature s p.1 p.2)
      UnresolvedSignatures.empty = registerAll pairs := rfl
  rw [heq] at h1
  simp only [UnresolvedSignatures.empty, List.length_nil] at h1
  omega

/-- C8 — amended. After every sequence of `add_unresolved_signature` calls:
every index stored in the address-to-index map is a valid index into the
secret-key list, no two addresses share an index, and the number of map
entries is at most the number of stored secret keys — equal exactly when no
address is registered more than once. Re-registering an address overwrites
its entry with the newest index (the number of keys stored before the call),
and any repeated registration leaves some stored key's index absent from the
map, so that older key has no corresponding address. -/
theorem c8_registry_invariant (pairs : List (Nat × Nat)) :
    (∀ a k, mapLookup (registerAll pairs).addr_idx_offset_map a = some k →
      k < (registerAll pairs).secret_keys.length)
    ∧ (mapValues (registerAll pairs).addr_idx_offset_map).Nodup
    ∧ (registerAll pairs).addr_idx_offset_map.length
        ≤ (registerAll pairs).secret_keys.length
    ∧ ((pairs.map Prod.fst).Nodup ↔
        (registerAll pairs).addr_idx_offset_map.length
          = (registerAll pairs).secret_keys.length)
    ∧ (∀ a key, mapLookup
        (registerAll (pairs ++ [(a, key)])).addr_idx_offset_map a
          = some (registerAll pairs).secret_keys.length)
    ∧ (¬ (pairs.map Prod.fst).Nodup →
        ∃ i, i < (registerAll pairs).secret_keys.length
          ∧ i ∉ mapValues (registerAll pairs).addr_idx_offset_map) := by
  refine ⟨fun a k h => registerAll_lookup_lt pairs a k h, (registerAll_inv pairs).2.1,
    (registerAll_inv pairs).2.2, ⟨fun hnd => ?_, fun heqn => ?_⟩,
    fun a key => ?_, fun hnd => ?_⟩
  · refine registerAll_length_eq_aux pairs UnresolvedSignatures.empty ?_ hnd rfl
    intro a _
    simp [UnresolvedSignatures.empty, mapLookup]
  · by_contra hnd
    have := registerAll_map_length_lt pairs hnd
    omega
  · have heq : registerAll (pairs ++ [(a, key)])
        = add_unresolved_signature (registerAll pairs) a key := by
      simp [registerAll, List.foldl_append]
    rw [heq]
    simp [add_unresolved_signature, mapLookup_mapInsert_self]
  · have h1 := registerAll_map_length_lt pairs hnd
    have h2 : (mapValues (registerAll pairs).addr_idx_offset_map).length
        = (registerAll pairs).addr_idx_offset_map.length := by
      simp [mapValues]
    exact exists_unmapped_index _ _ (registerAll_inv pairs).2.1 (by omega)

/-- C8 — witness: with the two distinct addresses `1` and `2` registered the
equality holds (`2 = 2`); with address `1` registered twice, some stored
key's index is absent from the map — both via the theorem applied at those
inputs. -/
theorem c8_registry_invariant_witness :
    ((registerAll [(1, 10), (2, 11)]).addr_idx_offset_map.length
      = (registerAll [(1, 10), (2, 11)]).secret_keys.length)
    ∧ (∃ i, i < (registerAll [(1, 10), (1, 11)]).secret_keys.length
        ∧ i ∉ mapValues (registerAll [(1, 10), (1, 11)]).addr_idx_offset_map) :=
  ⟨(c8_registry_invariant [(1, 10), (2, 11)]).2.2.2.1.mp (by decide),
   (c8_registry_invariant [(1, 10), (1, 11)]).2.2.2.2.2 (by decide)⟩

/-- C6 — confirmed. `create_coin_message_input` resolves a message with empty
payload to the coin-like native variant `MessageCoinSigned` and a message with
non-empty payload to the data-bearing `MessageDataSigned`;
`create_coin_message_predicate` does the same for the predicate-authorized
forms `MessageCoinPredicate` / `MessageDataPredicate`. -/
theorem c6_message_variant_selection (m : Message) (witness_index : Nat)
    (code predicate_data : List Nat) :
    (m.data = [] →
      create_coin_message_input m witness_index
        = .messageCoinSigned m.sender m.recipient m.amount m.nonce witness_index)
    ∧ (m.data ≠ [] →
      create_coin_message_input m witness_index
        = .messageDataSigned m.sender m.recipient m.amount m.nonce witness_index m.data)
    ∧ (m.data = [] →
      create_coin_message_predicate m code predicate_data
        = .messageCoinPredicate m.sender m.recipient m.amount m.nonce 0 code
            predicate_data)
    ∧ (m.data ≠ [] →
      create_coin_message_predicate m code predicate_data
        = .messageDataPredicate m.sender m.recipient m.amount m.nonce 0 m.data code
            predicate_data) := by
  refine ⟨fun h => ?_, fun h => ?_, fun h => ?_, fun h => ?_⟩ <;>
    simp [create_coin_message_input, create_coin_message_predicate,
      List.isEmpty_iff, h]

/-- C6 — witness: the empty-payload and one-byte-payload messages of the
source's own unit tests, through the theorem. -/
theorem c6_message_variant_selection_witness :
    create_coin_message_input ⟨0, 0, 0, 0, []⟩ 0 = .messageCoinSigned 0 0 0 0 0
    ∧ create_coin_message_input ⟨0, 0, 0, 0, [42]⟩ 0
        = .messageDataSigned 0 0 0 0 0 [42]
    ∧ create_coin_message_predicate ⟨0, 0, 0, 0, []⟩ [] []
        = .messageCoinPredicate 0 0 0 0 0 [] []
    ∧ create_coin_message_predicate ⟨0, 0, 0, 0, [42]⟩ [] []
        = .messageDataPredicate 0 0 0 0 0 [42] [] [] :=
  ⟨(c6_message_variant_selection ⟨0, 0, 0, 0, []⟩ 0 [] []).1 rfl,
   (c6_message_variant_selection ⟨0, 0, 0, 0, [42]⟩ 0 [] []).2.1 (by decide),
   (c6_message_variant_selection ⟨0, 0, 0, 0, []⟩ 0 [] []).2.2.1 rfl,
   (c6_message_variant_selection ⟨0, 0, 0, 0, [42]⟩ 0 [] []).2.2.2 (by decide)⟩

theorem resolveInput_offset_le (ext : Externals) (nw : Nat) (sigs : UnresolvedSignatures)
    (input : Input) (d : Nat) : d ≤ (resolveInput ext nw sigs input d).2 := by
  cases input with
  | resourceSigned resource =>
      cases resource with
      | coin c =>
          simp only [resolveInput, resolve_signed_resource]
          cases mapLookup sigs.addr_idx_offset_map c.owner <;> simp
      | message m =>
          simp only [resolveInput, resolve_signed_resource]
          cases mapLookup sigs.addr_idx_offset_map m.recipient <;> simp
  | resourcePredicate resource code data =>
      cases resource with
      | coin c =>
          simp only [resolveInput, resolve_predicate_resource]
          omega
      | message m =>
          simp only [resolveInput, resolve_predicate_resource]
          omega
  | contract u br sr tp cid => simp [resolveInput]

/-- C7 — confirmed. The offset accumulator threaded by `resolve_fuel_inputs`
never decreases: prefixing the starting offset to the trace of intermediate
offsets yields a `≤`-chain (each input's post-offset is at least its
pre-offset), for every input list, starting offset, witness count and
registry. Determinism — the second sentence of the claim — is recorded by the
second conjunct: the resolver and its offset trace are pure functions of their
arguments, so resolving the same list twice from the same starting offset
yields identical results and identical offset sequences. -/
theorem c7_offset_monotone (ext : Externals) (nw : Nat) (sigs : UnresolvedSignatures)
    (inputs : List Input) (d : Nat) :
    List.Chain' (· ≤ ·) (d :: offsetTrace ext nw sigs inputs d)
    ∧ offsetTrace ext nw sigs inputs d = offsetTrace ext nw sigs inputs d
    ∧ resolve_fuel_inputs ext inputs d nw sigs = resolve_fuel_inputs ext inputs d nw sigs := by
  refine ⟨?_, rfl, rfl⟩
  induction inputs generalizing d with
  | nil => simp [offsetTrace]
  | cons input rest ih =>
      rw [offsetTrace]
      exact List.Chain'.cons (resolveInput_offset_le ext nw sigs input d)
        (ih ((resolveInput ext nw sigs input d).2))

/-- A concrete instantiation of the external collaborators, used by the
closed witness and counterexample theorems below: every offset and size is
zero, padding is the identity, signing yields an empty witness. -/
def exampleExternals : Externals :=
  { coin_signed_data_offset := 0
    message_signed_data_offset := fun _ => 0
    coin_predicate_data_offset := fun _ => 0
    message_predicate_data_offset := fun _ _ => 0
    contract_input_offset := 0
    base_offset_script := 0
    padded_len := fun n => n
    default_script_witness_limit := 0
    policies_size_dynamic := fun _ => 0
    max_gas := fun _ _ => 0
    tx_id := fun _ _ => 0
    sign := fun _ _ => [] }

/-- A concrete network for the witness theorems: max gas per tx 100. -/
def exampleNet : NetworkInfo := { max_gas_per_tx := 100, min_gas_price := 0, chain_id := 0 }

theorem resolveInput_error_missing (ext : Externals) (nw : Nat)
    (sigs : UnresolvedSignatures) (input : Input) (d : Nat) (e : BuildError)
    (h : (resolveInput ext nw sigs input d).1 = .error e) :
    e.isMissingSignature = true ∧ e.kindIsInvalidData = true := by
  cases input with
  | resourceSigned resource =>
      cases resource with
      | coin c =>
          simp only [resolveInput, resolve_signed_resource] at h
          cases hc : mapLookup sigs.addr_idx_offset_map c.owner with
          | none =>
              rw [hc] at h
              simp at h
              simp [← h, BuildError.isMissingSignature, BuildError.kindIsInvalidData]
          | some w => rw [hc] at h; simp at h
      | message m =>
          simp only [resolveInput, resolve_signed_resource] at h
          cases hc : mapLookup sigs.addr_idx_offset_map m.recipient with
          | none =>
              rw [hc] at h
              simp at h
              simp [← h, BuildError.isMissingSignature, BuildError.kindIsInvalidData]
          | some w => rw [hc] at h; simp at h
  | resourcePredicate resource code data =>
      cases resource <;> simp [resolveInput, resolve_predicate_resource] at h
  | contract u br sr tp cid => simp [resolveInput] at h

/-- C3 — confirmed. If any input at position `j` in the ordered list is a
signed coin whose owner (or signed message whose recipient) has no entry in
the signature registry, then `resolve_fuel_inputs` fails with a
missing-signature error of kind `InvalidData`, returning `Except.error` — no
input list, partial or otherwise. The statement covers both resource kinds
through `Input.signedOwner` (coin owner / message recipient). -/
theorem c3_missing_signature_fails (ext : Externals) (inputs : List Input)
    (d nw : Nat) (sigs : UnresolvedSignatures) (j addr : Nat)
    (hsigned : signedOwnerAt inputs j = some addr)
    (hmiss : mapLookup sigs.addr_idx_offset_map addr = none) :
    ∃ e, resolve_fuel_inputs ext inputs d nw sigs = .error e
      ∧ e.isMissingSignature = true ∧ e.kindIsInvalidData = true := by
  induction inputs generalizing d j with
  | nil => simp [signedOwnerAt] at hsigned
  | cons input rest ih =>
      cases j with
      | zero =>
          simp only [signedOwnerAt, List.get?_cons_zero, Option.some_bind] at hsigned
          cases input with
          | resourceSigned resource =>
              cases resource with
              | coin c =>
                  simp only [Input.signedOwner, Option.some_inj] at hsigned
                  subst hsigned
                  exact ⟨.missingSignatureCoin c.owner,
                    by simp [resolve_fuel_inputs, resolveInput, resolve_signed_resource,
                      hmiss], rfl, rfl⟩
              | message m =>
                  simp only [Input.signedOwner, Option.some_inj] at hsigned
                  subst hsigned
                  exact ⟨.missingSignatureMessage m.recipient,
                    by simp [resolve_fuel_inputs, resolveInput, resolve_signed_resource,
                      hmiss], rfl, rfl⟩
          | resourcePredicate resource code data => simp [Input.signedOwner] at hsigned
          | contract u br sr tp cid => simp [Input.signedOwner] at hsigned
      | succ j' =>
          simp only [signedOwnerAt, List.get?_cons_succ] at hsigned
          cases hri : resolveInput ext nw sigs input d with
          | mk res d' =>
              cases res with
              | error e =>
                  have hh := resolveInput_error_missing ext nw sigs input d e
                    (by rw [hri])
                  exact ⟨e, by simp [resolve_fuel_inputs, hri], hh.1, hh.2⟩
              | ok fi =>
                  obtain ⟨e, he, hm, hk⟩ := ih d' j' hsigned
                  exact ⟨e, by simp [resolve_fuel_inputs, hri, he], hm, hk⟩

/-- C3 — witness: one missing signed coin (owner `5`) and one missing signed
message (recipient `7`), each against an empty registry, both through the
theorem. -/
theorem c3_missing_signature_fails_witness :
    (∃ e, resolve_fuel_inputs
        exampleExternals
        [.resourceSigned (.coin ⟨0, 5, 10, 0⟩)] 0 0 ⟨[], []⟩ = .error e
      ∧ e.isMissingSignature = true ∧ e.kindIsInvalidData = true)
    ∧ (∃ e, resolve_fuel_inputs
        exampleExternals
        [.resourceSigned (.message ⟨3, 7, 1, 0, [9]⟩)] 0 0 ⟨[], []⟩ = .error e
      ∧ e.isMissingSignature = true ∧ e.kindIsInvalidData = true) :=
  ⟨c3_missing_signature_fails exampleExternals _ 0 0 ⟨[], []⟩ 0 5 rfl rfl,
   c3_missing_signature_fails exampleExternals _ 0 0 ⟨[], []⟩ 0 7 rfl rfl⟩

theorem set_script_gas_limit_to_gas_used_ok_inputs (ext : Externals)
    (provider : Script → Except Nat Nat) (net : NetworkInfo) (tx tx' : Script)
    (h : set_script_gas_limit_to_gas_used ext provider net tx = .ok tx') :
    tx'.inputs = tx.inputs ∧ ∃ g, provider (dryRunTx ext net tx) = .ok g
      ∧ tx'.script_gas_limit = g := by
  rw [set_script_gas_limit_to_gas_used] at h
  split at h
  · simp at h
  · cases hp : provider (dryRunTx ext net tx) with
    | error e => simp only [hp] at h; simp at h
    | ok g =>
        simp only [hp] at h
        simp only [Except.ok.injEq] at h
        subst h
        refine ⟨?_, g, rfl, rfl⟩
        simp [Script.withPoppedInput, Script.set_script_gas_limit, dryRunTx]

theorem resolve_fuel_tx_provider_ok_spec (ext : Externals)
    (provider : Script → Except Nat Nat) (b : ScriptTransactionBuilder)
    (off nw : Nat) (tx'' : Script)
    (h : resolve_fuel_tx_provider ext provider b off nw = .ok tx'') :
    ∃ l, resolve_fuel_inputs ext b.inputs
        (off + ext.policies_size_dynamic (scriptPolicies ext b)) nw
        b.unresolved_signatures = .ok l
      ∧ tx''.inputs = l := by
  rw [resolve_fuel_tx_provider] at h
  cases hri : resolve_fuel_inputs ext b.inputs
      (off + ext.policies_size_dynamic (scriptPolicies ext b)) nw
      b.unresolved_signatures with
  | error e => simp only [hri] at h; simp at h
  | ok l =>
      simp only [hri] at h
      refine ⟨l, rfl, ?_⟩
      cases hc : b.script.isEmpty with
      | true =>
          rw [if_pos hc] at h
          simp only [Except.ok.injEq] at h
          subst h
          simp [Script.set_script_gas_limit]
      | false =>
          rw [if_neg (by simp [hc])] at h
          cases hgl : b.gas_limit with
          | some gl =>
              simp only [hgl] at h
              simp only [Except.ok.injEq] at h
              subst h
              simp [Script.set_script_gas_limit]
          | none =>
              simp only [hgl] at h
              cases hs : set_script_gas_limit_to_gas_used ext provider b.network_info
                  { script_gas_limit := 0, script := b.script, script_data := b.script_data
                    policies := scriptPolicies ext b, inputs := l, outputs := b.outputs
                    witnesses := create_dry_run_witnesses b nw } with
              | error e => simp only [hs] at h; simp at h
              | ok tx' =>
                  simp only [hs] at h
                  simp only [Except.ok.injEq] at h
                  subst h
                  simpa using
                    (set_script_gas_limit_to_gas_used_ok_inputs ext provider
                      b.network_info _ tx' hs).1

theorem witnessIndexOf_create_coin_message_input (m : Message) (w : Nat) :
    (create_coin_message_input m w).witnessIndexOf = some w := by
  by_cases h : m.data.isEmpty <;>
    simp [create_coin_message_input, h, FuelInput.witnessIndexOf]

theorem num_witnesses_ok_spec (b : ScriptTransactionBuilder) (nw : Nat)
    (h : num_witnesses b = .ok nw) :
    nw = b.witnesses.length % 256
      ∧ b.witnesses.length + b.unresolved_signatures.secret_keys.length ≤ 256 := by
  rw [num_witnesses] at h
  split at h
  · simp at h
  · simp at h
    omega

theorem build_ok_spec (ext : Externals) (provider : Script → Except Nat Nat)
    (b : ScriptTransactionBuilder) (st : ScriptTransaction)
    (h : build ext provider b = .ok st) :
    ∃ nw l, num_witnesses b = .ok nw
      ∧ resolve_fuel_inputs ext b.inputs
          ((if is_using_predicates b then base_offset ext b else 0)
            + ext.policies_size_dynamic (scriptPolicies ext b)) nw
          b.unresolved_signatures = .ok l
      ∧ st.tx.inputs = l := by
  rw [build] at h
  cases hnw : num_witnesses b with
  | error e => simp only [hnw] at h; simp at h
  | ok nw =>
      simp only [hnw] at h
      cases hrtp : resolve_fuel_tx_provider ext provider b
          (if is_using_predicates b then base_offset ext b else 0) nw with
      | error e => simp only [hrtp] at h; simp at h
      | ok tx'' =>
          simp only [hrtp] at h
          simp only [Except.ok.injEq] at h
          obtain ⟨l, hl, hinp⟩ := resolve_fuel_tx_provider_ok_spec ext provider b _ nw
            tx'' hrtp
          exact ⟨nw, l, rfl, hl, by rw [← h]; exact hinp⟩

theorem resolve_fuel_inputs_ok_spec (ext : Externals) (inputs : List Input)
    (nw : Nat) (sigs : UnresolvedSignatures) :
    ∀ d outs, resolve_fuel_inputs ext inputs d nw sigs = .ok outs →
      outs.length = inputs.length
      ∧ ∀ j addr, signedOwnerAt inputs j = some addr →
          ∃ k, mapLookup sigs.addr_idx_offset_map addr = some k
            ∧ witnessIndexAt outs j = some ((nw + k % 256) % 256) := by
  induction inputs with
  | nil =>
      intro d outs h
      simp [resolve_fuel_inputs] at h
      subst h
      exact ⟨rfl, fun j addr hj => by simp [signedOwnerAt] at hj⟩
  | cons input rest ih =>
      intro d outs h
      rw [resolve_fuel_inputs] at h
      cases hri : resolveInput ext nw sigs input d with
      | mk res d' =>
          simp only [hri] at h
          cases res with
          | error e => simp at h
          | ok fi =>
              cases hrest : resolve_fuel_inputs ext rest d' nw sigs with
              | error e => simp only [hrest] at h; simp at h
              | ok rest' =>
                  simp only [hrest] at h
                  simp only [Except.ok.injEq] at h
                  subst h
                  obtain ⟨hlen, hcorr⟩ := ih d' rest' hrest
                  refine ⟨by simp [hlen], fun j addr hj => ?_⟩
                  cases j with
                  | zero =>
                      simp only [signedOwnerAt, List.get?_cons_zero,
                        Option.some_bind] at hj
                      cases input with
                      | resourceSigned resource =>
                          cases resource with
                          | coin c =>
                              simp only [Input.signedOwner, Option.some_inj] at hj
                              subst hj
                              simp only [resolveInput, resolve_signed_resource] at hri
                              cases hlk : mapLookup sigs.addr_idx_offset_map c.owner with
                              | none => simp only [hlk] at hri; simp at hri
                              | some k =>
                                  simp only [hlk] at hri
                                  simp only [Prod.mk.injEq, Except.ok.injEq] at hri
                                  refine ⟨k, rfl, ?_⟩
                                  simp [witnessIndexAt, ← hri.1, create_coin_input,
                                    FuelInput.witnessIndexOf]
                          | message m =>
                              simp only [Input.signedOwner, Option.some_inj] at hj
                              subst hj
                              simp only [resolveInput, resolve_signed_resource] at hri
                              cases hlk : mapLookup sigs.addr_idx_offset_map
                                  m.recipient with
                              | none => simp only [hlk] at hri; simp at hri
                              | some k =>
                                  simp only [hlk] at hri
                                  simp only [Prod.mk.injEq, Except.ok.injEq] at hri
                                  refine ⟨k, rfl, ?_⟩
                                  simp [witnessIndexAt, ← hri.1,
                                    witnessIndexOf_create_coin_message_input]
                      | resourcePredicate resource code data =>
                          simp [Input.signedOwner] at hj
                      | contract u br sr tp cid => simp [Input.signedOwner] at hj
                  | succ j' =>
                      simp only [signedOwnerAt, List.get?_cons_succ] at hj
                      obtain ⟨k, hk, hw⟩ := hcorr j' addr hj
                      exact ⟨k, hk, by simpa [witnessIndexAt] using hw⟩

/-- C1 — confirmed. For every successful build whose registry was produced by
a sequence of `add_unresolved_signature` calls, any signed input (coin owner or
message recipient `addr`) in the final native input list carries witness index
`(number of explicit witnesses) + (the registry index recorded for addr)`, and
two signed inputs at positions `j₁`, `j₂` sharing the same owning address carry
the same index. (The source computes the index with `u8` arithmetic
`num_witnesses + *witness_idx_offset as u8`; the 256-witness check that build
performs first makes that arithmetic exact.) -/
theorem c1_witness_index (ext : Externals) (provider : Script → Except Nat Nat)
    (b : ScriptTransactionBuilder) (pairs : List (Nat × Nat))
    (st : ScriptTransaction) (j₁ j₂ addr : Nat)
    (hreg : b.unresolved_signatures = registerAll pairs)
    (hok : build ext provider b = .ok st)
    (h1 : signedOwnerAt b.inputs j₁ = some addr)
    (h2 : signedOwnerAt b.inputs j₂ = some addr) :
    ∃ k, mapLookup b.unresolved_signatures.addr_idx_offset_map addr = some k
      ∧ witnessIndexAt st.tx.inputs j₁ = some (b.witnesses.length + k)
      ∧ witnessIndexAt st.tx.inputs j₂ = some (b.witnesses.length + k) := by
  obtain ⟨nw, l, hnw, hl, hinp⟩ := build_ok_spec ext provider b st hok
  obtain ⟨hnwv, hle⟩ := num_witnesses_ok_spec b nw hnw
  obtain ⟨-, hcorr⟩ := resolve_fuel_inputs_ok_spec ext b.inputs nw
    b.unresolved_signatures _ l hl
  obtain ⟨k, hk, hw1⟩ := hcorr j₁ addr h1
  obtain ⟨k', hk', hw2⟩ := hcorr j₂ addr h2
  have hkk : k' = k := by
    rw [hk] at hk'
    exact (Option.some_inj.mp hk').symm
  rw [hkk] at hw2
  have hklt : k < b.unresolved_signatures.secret_keys.length := by
    have := registerAll_lookup_lt pairs addr k (by rw [← hreg]; exact hk)
    rw [← hreg] at this
    exact this
  have harith : (nw + k % 256) % 256 = b.witnesses.length + k := by
    subst hnwv
    have e1 : k % 256 = k := Nat.mod_eq_of_lt (by omega)
    have e2 : b.witnesses.length % 256 = b.witnesses.length :=
      Nat.mod_eq_of_lt (by omega)
    rw [e1, e2]
    exact Nat.mod_eq_of_lt (by omega)
  rw [harith] at hw1 hw2
  exact ⟨k, hk, by rw [hinp]; exact hw1, by rw [hinp]; exact hw2⟩

/-- A concrete builder for the closed witness theorems: one signed coin owned
by address `5`, one explicit witness, address `5` registered with key `99`,
empty script. -/
def exampleBuilderSigned : ScriptTransactionBuilder :=
  { gas_price := none, gas_limit := none, witness_limit := none, max_fee := none
    maturity := 0, script := [], script_data := []
    inputs := [.resourceSigned (.coin ⟨0, 5, 10, 0⟩)]
    outputs := [], witnesses := [[1]], network_info := exampleNet
    unresolved_signatures := registerAll [(5, 99)] }

/-- The transaction `exampleBuilderSigned` builds (empty script, so gas limit
zero and the dry-run capability untouched). -/
def exampleSignedResult : ScriptTransaction :=
  ⟨{ script_gas_limit := 0, script := [], script_data := []
     policies := ⟨none, some 0, some 0, some 0⟩
     inputs := [.coinSigned 0 5 10 0 0 1 0], outputs := []
     witnesses := [[1], []] }, false⟩

/-- C1 — witness: building `exampleBuilderSigned` gives the signed coin the
witness index `1 + 0` (one explicit witness, registry index `0`). -/
theorem c1_witness_index_witness :
    ∃ k, mapLookup exampleBuilderSigned.unresolved_signatures.addr_idx_offset_map 5
        = some k
      ∧ witnessIndexAt exampleSignedResult.tx.inputs 0 = some (1 + k)
      ∧ witnessIndexAt exampleSignedResult.tx.inputs 0 = some (1 + k) :=
  c1_witness_index exampleExternals (fun _ => .ok 7) exampleBuilderSigned [(5, 99)]
    exampleSignedResult 0 0 5 rfl rfl rfl rfl

theorem set_script_gas_limit_to_gas_used_error_spec (ext : Externals)
    (provider : Script → Except Nat Nat) (net : NetworkInfo) (tx : Script)
    (e : BuildError) (h : set_script_gas_limit_to_gas_used ext provider net tx = .error e) :
    e = .arithmeticOverflow ∨ ∃ x, e = .dryRun x := by
  rw [set_script_gas_limit_to_gas_used] at h
  split at h
  · simp only [Except.error.injEq] at h
    exact Or.inl h.symm
  · cases hp : provider (dryRunTx ext net tx) with
    | error x =>
        simp only [hp] at h
        simp only [Except.error.injEq] at h
        exact Or.inr ⟨x, h.symm⟩
    | ok g => simp only [hp] at h; simp at h

theorem resolve_fuel_inputs_error_spec (ext : Externals) (inputs : List Input)
    (nw : Nat) (sigs : UnresolvedSignatures) :
    ∀ d e, resolve_fuel_inputs ext inputs d nw sigs = .error e →
      e.isMissingSignature = true := by
  induction inputs with
  | nil => intro d e h; simp [resolve_fuel_inputs] at h
  | cons input rest ih =>
      intro d e h
      rw [resolve_fuel_inputs] at h
      cases hri : resolveInput ext nw sigs input d with
      | mk res d' =>
          simp only [hri] at h
          cases res with
          | error e' =>
              simp only [Except.error.injEq] at h
              exact h ▸ (resolveInput_error_missing ext nw sigs input d e'
                (by rw [hri])).1
          | ok fi =>
              cases hrest : resolve_fuel_inputs ext rest d' nw sigs with
              | error e' =>
                  simp only [hrest] at h
                  simp only [Except.error.injEq] at h
                  exact h ▸ ih d' e' hrest
              | ok rest' => simp only [hrest] at h; simp at h

theorem resolve_fuel_tx_provider_error_spec (ext : Externals)
    (provider : Script → Except Nat Nat) (b : ScriptTransactionBuilder)
    (off nw : Nat) (e : BuildError)
    (h : resolve_fuel_tx_provider ext provider b off nw = .error e) :
    e ≠ .tooManyWitnesses := by
  rw [resolve_fuel_tx_provider] at h
  cases hri : resolve_fuel_inputs ext b.inputs
      (off + ext.policies_size_dynamic (scriptPolicies ext b)) nw
      b.unresolved_signatures with
  | error e' =>
      simp only [hri] at h
      simp only [Except.error.injEq] at h
      have := resolve_fuel_inputs_error_spec ext b.inputs nw b.unresolved_signatures _
        e' hri
      intro hcontra
      subst h
      rw [hcontra] at this
      simp [BuildError.isMissingSignature] at this
  | ok l =>
      simp only [hri] at h
      cases hc : b.script.isEmpty with
      | true => rw [if_pos hc] at h; simp at h
      | false =>
          rw [if_neg (by simp [hc])] at h
          cases hgl : b.gas_limit with
          | some gl => simp only [hgl] at h; simp at h
          | none =>
              simp only [hgl] at h
              cases hs : set_script_gas_limit_to_gas_used ext provider b.network_info
                  { script_gas_limit := 0, script := b.script, script_data := b.script_data
                    policies := scriptPolicies ext b, inputs := l, outputs := b.outputs
                    witnesses := create_dry_run_witnesses b nw } with
              | error e' =>
                  simp only [hs] at h
                  simp only [Except.error.injEq] at h
                  subst h
                  rcases set_script_gas_limit_to_gas_used_error_spec ext provider
                      b.network_info _ e' hs with h' | ⟨x, h'⟩ <;>
                    (intro hcontra; rw [hcontra] at h'; simp at h')
              | ok tx' => simp only [hs] at h; simp at h

/-- C4 — confirmed. A build fails with the over-limit witness error
(`tooManyWitnesses`, the source's `InvalidData` "tx can not have more than 256
witnesses") exactly when `(explicit witnesses) + (registered secret keys)`
exceeds 256, and never for a smaller total. The check happens in
`num_witnesses`, before any input resolution: the failure holds for every
input list and every provider, so no resolution work is observable when it
fires. -/
theorem c4_too_many_witnesses (ext : Externals) (provider : Script → Except Nat Nat)
    (b : ScriptTransactionBuilder) :
    (b.witnesses.length + b.unresolved_signatures.secret_keys.length > 256 →
      build ext provider b = .error .tooManyWitnesses)
    ∧ (b.witnesses.length + b.unresolved_signatures.secret_keys.length ≤ 256 →
      build ext provider b ≠ .error .tooManyWitnesses) := by
  constructor
  · intro hgt
    have hnw : num_witnesses b = .error .tooManyWitnesses := by
      rw [num_witnesses]
      rw [if_pos hgt]
    rw [build]
    simp only [hnw]
  · intro hle hcontra
    have hnw : num_witnesses b = .ok (b.witnesses.length % 256) := by
      rw [num_witnesses]
      rw [if_neg (by omega)]
    rw [build] at hcontra
    simp only [hnw] at hcontra
    cases hrtp : resolve_fuel_tx_provider ext provider b
        (if is_using_predicates b then base_offset ext b else 0)
        (b.witnesses.length % 256) with
    | error e =>
        simp only [hrtp] at hcontra
        simp only [Except.error.injEq] at hcontra
        exact resolve_fuel_tx_provider_error_spec ext provider b _ _ e hrtp hcontra
    | ok tx'' => simp only [hrtp] at hcontra; simp at hcontra

/-- A builder holding 257 explicit witnesses and no pending keys. -/
def exampleBuilderOverLimit : ScriptTransactionBuilder :=
  { exampleBuilderSigned with
    inputs := [], witnesses := List.replicate 257 []
    unresolved_signatures := ⟨[], []⟩ }

set_option maxRecDepth 2048 in
/-- C4 — witness: 257 explicit witnesses and no keys trip the check; one
explicit witness and one key do not. -/
theorem c4_too_many_witnesses_witness :
    build exampleExternals (fun _ => .ok 7) exampleBuilderOverLimit
      = .error .tooManyWitnesses
    ∧ build exampleExternals (fun _ => .ok 7) exampleBuilderSigned
        ≠ .error .tooManyWitnesses :=
  ⟨(c4_too_many_witnesses exampleExternals (fun _ => .ok 7)
      exampleBuilderOverLimit).1 (by decide),
   (c4_too_many_witnesses exampleExternals (fun _ => .ok 7)
      exampleBuilderSigned).2 (by decide)⟩

theorem resolve_fuel_tx_provider_indep (ext : Externals)
    (p₁ p₂ : Script → Except Nat Nat) (b : ScriptTransactionBuilder) (off nw : Nat)
    (h : b.script = [] ∨ ∃ gl, b.gas_limit = some gl) :
    resolve_fuel_tx_provider ext p₁ b off nw = resolve_fuel_tx_provider ext p₂ b off nw := by
  rw [resolve_fuel_tx_provider, resolve_fuel_tx_provider]
  cases hri : resolve_fuel_inputs ext b.inputs
      (off + ext.policies_size_dynamic (scriptPolicies ext b)) nw
      b.unresolved_signatures with
  | error e => simp only [hri]
  | ok l =>
      simp only [hri]
      rcases h with hc | ⟨gl, hgl⟩
      · have hce : b.script.isEmpty = true := by simp [hc]
        rw [if_pos hce, if_pos hce]
      · cases hc2 : b.script.isEmpty with
        | true => simp
        | false => simp [hgl]

theorem build_indep (ext : Externals) (p₁ p₂ : Script → Except Nat Nat)
    (b : ScriptTransactionBuilder)
    (h : b.script = [] ∨ ∃ gl, b.gas_limit = some gl) :
    build ext p₁ b = build ext p₂ b := by
  rw [build, build]
  cases hnw : num_witnesses b with
  | error e => simp only [hnw]
  | ok nw =>
      simp only [hnw]
      rw [resolve_fuel_tx_provider_indep ext p₁ p₂ b
        (if is_using_predicates b then base_offset ext b else 0) nw h]

theorem resolve_fuel_tx_provider_gas_spec (ext : Externals)
    (p : Script → Except Nat Nat) (b : ScriptTransactionBuilder) (off nw : Nat)
    (tx'' : Script) (h : resolve_fuel_tx_provider ext p b off nw = .ok tx'') :
    (b.script = [] → tx''.script_gas_limit = 0)
    ∧ (∀ gl, b.gas_limit = some gl → b.script ≠ [] → tx''.script_gas_limit = gl)
    ∧ (b.gas_limit = none → b.script ≠ [] →
        ∃ txd, p txd = .ok tx''.script_gas_limit) := by
  rw [resolve_fuel_tx_provider] at h
  cases hri : resolve_fuel_inputs ext b.inputs
      (off + ext.policies_size_dynamic (scriptPolicies ext b)) nw
      b.unresolved_signatures with
  | error e => simp only [hri] at h; simp at h
  | ok l =>
      simp only [hri] at h
      cases hc : b.script.isEmpty with
      | true =>
          have hce : b.script = [] := by simpa using hc
          rw [if_pos hc] at h
          simp only [Except.ok.injEq] at h
          subst h
          exact ⟨fun _ => rfl, fun gl _ hne => absurd hce hne,
            fun _ hne => absurd hce hne⟩
      | false =>
          have hcne : b.script ≠ [] := by simpa using hc
          rw [if_neg (by simp [hc])] at h
          cases hgl : b.gas_limit with
          | some gl =>
              simp only [hgl] at h
              simp only [Except.ok.injEq] at h
              subst h
              refine ⟨fun hce => absurd hce hcne, fun gl' hgl' _ => ?_, ?_⟩
              · simp only [Option.some_inj] at hgl'
                simp [Script.set_script_gas_limit, hgl']
              · intro hn
                simp [hgl] at hn
          | none =>
              simp only [hgl] at h
              cases hs : set_script_gas_limit_to_gas_used ext p b.network_info
                  { script_gas_limit := 0, script := b.script, script_data := b.script_data
                    policies := scriptPolicies ext b, inputs := l, outputs := b.outputs
                    witnesses := create_dry_run_witnesses b nw } with
              | error e => simp only [hs] at h; simp at h
              | ok tx' =>
                  simp only [hs] at h
                  simp only [Except.ok.injEq] at h
                  subst h
                  refine ⟨fun hce => absurd hce hcne, fun gl' hgl' _ => ?_, ?_⟩
                  · simp [hgl] at hgl'
                  · intro _ _
                    obtain ⟨-, g, hp, hg⟩ :=
                      set_script_gas_limit_to_gas_used_ok_inputs ext p
                        b.network_info _ tx' hs
                    exact ⟨_, by rw [hp, hg]⟩

theorem build_ok_gas (ext : Externals) (p : Script → Except Nat Nat)
    (b : ScriptTransactionBuilder) (st : ScriptTransaction)
    (h : build ext p b = .ok st) :
    ∃ nw, num_witnesses b = .ok nw
      ∧ ∃ tx'', resolve_fuel_tx_provider ext p b
          (if is_using_predicates b then base_offset ext b else 0) nw = .ok tx''
        ∧ st.tx.script_gas_limit = tx''.script_gas_limit := by
  rw [build] at h
  cases hnw : num_witnesses b with
  | error e => simp only [hnw] at h; simp at h
  | ok nw =>
      simp only [hnw] at h
      cases hrtp : resolve_fuel_tx_provider ext p b
          (if is_using_predicates b then base_offset ext b else 0) nw with
      | error e => simp only [hrtp] at h; simp at h
      | ok tx'' =>
          simp only [hrtp] at h
          simp only [Except.ok.injEq] at h
          exact ⟨nw, rfl, tx'', hrtp, by rw [← h]⟩

/-- C2 — confirmed. Gas-limit precedence of a script build, in the source's
branch order: empty script bytecode forces a final gas limit of exactly zero
and the dry-run capability is never consulted (the build result does not
depend on the provider); otherwise an explicit caller limit is carried exactly
into the final transaction, again without consulting the provider; otherwise
the final limit is exactly a gas usage reported by the provider for the
dry-run transaction (not the provisional upper bound, which the provider call
overwrites). -/
theorem c2_gas_limit_precedence (ext : Externals) (b : ScriptTransactionBuilder)
    (p₁ p₂ : Script → Except Nat Nat) (st : ScriptTransaction) (gl : Nat) :
    (b.script = [] → build ext p₁ b = build ext p₂ b)
    ∧ (b.script = [] → build ext p₁ b = .ok st → st.tx.script_gas_limit = 0)
    ∧ (b.script ≠ [] → b.gas_limit = some gl → build ext p₁ b = build ext p₂ b)
    ∧ (b.script ≠ [] → b.gas_limit = some gl → build ext p₁ b = .ok st →
        st.tx.script_gas_limit = gl)
    ∧ (b.script ≠ [] → b.gas_limit = none → build ext p₁ b = .ok st →
        ∃ txd, p₁ txd = .ok st.tx.script_gas_limit) := by
  refine ⟨fun hc => build_indep ext p₁ p₂ b (Or.inl hc),
    fun hc hok => ?_,
    fun _ hgl => build_indep ext p₁ p₂ b (Or.inr ⟨gl, hgl⟩),
    fun hne hgl hok => ?_, fun hne hgl hok => ?_⟩
  · obtain ⟨nw, -, tx'', hrtp, hgas⟩ := build_ok_gas ext p₁ b st hok
    rw [hgas]
    exact (resolve_fuel_tx_provider_gas_spec ext p₁ b _ nw tx'' hrtp).1 hc
  · obtain ⟨nw, -, tx'', hrtp, hgas⟩ := build_ok_gas ext p₁ b st hok
    rw [hgas]
    exact (resolve_fuel_tx_provider_gas_spec ext p₁ b _ nw tx'' hrtp).2.1 gl hgl hne
  · obtain ⟨nw, -, tx'', hrtp, hgas⟩ := build_ok_gas ext p₁ b st hok
    rw [hgas]
    exact (resolve_fuel_tx_provider_gas_spec ext p₁ b _ nw tx'' hrtp).2.2 hgl hne

/-- A provider that always reports gas usage 7. -/
def exampleProvider7 : Script → Except Nat Nat := fun _ => .ok 7

/-- A builder with a one-byte script, no explicit gas limit, no inputs. -/
def exampleBuilderScript : ScriptTransactionBuilder :=
  { exampleBuilderSigned with
    script := [1], inputs := [], witnesses := [], unresolved_signatures := ⟨[], []⟩ }

/-- The transaction `exampleBuilderScript` builds against a provider reporting
a usage of 7. -/
def exampleScriptResult : ScriptTransaction :=
  ⟨{ script_gas_limit := 7, script := [1], script_data := []
     policies := ⟨none, some 0, some 0, some 0⟩
     inputs := [], outputs := [], witnesses := [] }, false⟩

/-- C2 — witness: with non-empty script and no explicit limit, a provider
reporting usage 7 yields final limit 7, and the theorem exhibits the dry-run
transaction whose reported usage it is. -/
theorem c2_gas_limit_precedence_witness :
    ∃ txd, exampleProvider7 txd = Except.ok exampleScriptResult.tx.script_gas_limit :=
  (c2_gas_limit_precedence exampleExternals exampleBuilderScript
      exampleProvider7 exampleProvider7 exampleScriptResult 0).2.2.2.2
    (by decide) rfl rfl

/-- A script transaction that already holds one large signed coin input
(amount `1_000_000_000`, the same amount the source's own synthetic funding
input uses), i.e. a transaction with a spendable input that covers its fee. -/
def exampleFundedTx : Script :=
  { script_gas_limit := 0, script := [1], script_data := []
    policies := ⟨none, none, none, none⟩
    inputs := [.coinSigned 0 0 1000000000 0 0 0 0], outputs := [], witnesses := [] }

/-- C5 — counterexample. The claim says the synthetic funding input is
appended "only if the transaction currently has no spendable input that could
cover its own fee". `set_script_gas_limit_to_gas_used` appends it
unconditionally: `exampleFundedTx` already holds a fee-covering input (its
input list is non-empty, holding a coin of the very amount the synthetic input
would provide), yet the transaction handed to the dry-run capability carries
the synthetic input appended — a provider that reports the input count as the
gas usage observes `2` inputs, and that `2` becomes the final gas limit. -/
theorem c5_counterexample :
    (dryRunTx exampleExternals exampleNet exampleFundedTx).inputs
      = exampleFundedTx.inputs ++ [tempFundingInput]
    ∧ exampleFundedTx.inputs ≠ []
    ∧ set_script_gas_limit_to_gas_used exampleExternals
        (fun t => Except.ok t.inputs.length) exampleNet exampleFundedTx
      = Except.ok { exampleFundedTx with script_gas_limit := 2 } :=
  ⟨rfl, by decide, rfl⟩

/-- C5 — amended. The synthetic funding input is appended unconditionally
(whether or not a spendable fee-covering input is present) before the dry-run
call; after a successful dry-run call it is removed, so the returned
transaction's inputs equal the inputs before the call; and every successful
build returns exactly the resolved inputs — the synthetic input never appears
in a final returned transaction (on dry-run failure no transaction is
returned at all). -/
theorem c5_synthetic_input_scoped (ext : Externals) (net : NetworkInfo)
    (tx tx' : Script) (p : Script → Except Nat Nat)
    (b : ScriptTransactionBuilder) (st : ScriptTransaction) :
    (dryRunTx ext net tx).inputs = tx.inputs ++ [tempFundingInput]
    ∧ (set_script_gas_limit_to_gas_used ext p net tx = .ok tx' →
        tx'.inputs = tx.inputs)
    ∧ (build ext p b = .ok st →
        ∃ nw l, resolve_fuel_inputs ext b.inputs
            ((if is_using_predicates b then base_offset ext b else 0)
              + ext.policies_size_dynamic (scriptPolicies ext b)) nw
            b.unresolved_signatures = .ok l
          ∧ st.tx.inputs = l) := by
  refine ⟨rfl,
    fun h => (set_script_gas_limit_to_gas_used_ok_inputs ext p net tx tx' h).1,
    fun h => ?_⟩
  obtain ⟨nw, l, -, hl, hi⟩ := build_ok_spec ext p b st h
  exact ⟨nw, l, hl, hi⟩

/-- C5 — witness: a successful estimation against `exampleFundedTx` returns a
transaction whose inputs are exactly the original ones, via the theorem. -/
theorem c5_synthetic_input_scoped_witness :
    ({ exampleFundedTx with script_gas_limit := 2 } : Script).inputs
      = exampleFundedTx.inputs :=
  (c5_synthetic_input_scoped exampleExternals exampleNet exampleFundedTx
      { exampleFundedTx with script_gas_limit := 2 }
      (fun t => Except.ok t.inputs.length) exampleBuilderSigned
      exampleSignedResult).2.1 rfl

/-- Modelled from the spec's words, for comparison with the source: the
claimed provisional budget "(network max gas per transaction / 2) −
transaction's own non-execution gas overhead, plus 1 to absorb rounding". -/
def specClaimedProvisionalLimit (max_gas_per_tx overhead : Nat) : Nat :=
  max_gas_per_tx / 2 - overhead + 1

/-- External collaborators whose `max_gas` (the transaction's non-execution
gas overhead) is the constant 10. -/
def exampleExternalsOverhead10 : Externals :=
  { exampleExternals with max_gas := fun _ _ => 10 }

/-- External collaborators whose `max_gas` is the constant 60 (larger than
half of `exampleNet`'s 100 max gas per transaction). -/
def exampleExternalsOverhead60 : Externals :=
  { exampleExternals with max_gas := fun _ _ => 60 }

/-- C9 — counterexample. With max gas per transaction 100 and overhead 10 the
source sets the provisional limit to `100 / 2 - (10 + 1) = 39` (observed by a
provider that echoes the submitted transaction's gas limit back as the usage),
while the claim's formula "(max/2) − overhead, plus 1" yields `41`: the source
adds the rounding 1 to the overhead before subtracting rather than adding it
to the difference. -/
theorem c9_counterexample :
    set_script_gas_limit_to_gas_used exampleExternalsOverhead10
        (fun t => Except.ok t.script_gas_limit) exampleNet exampleFundedTx
      = Except.ok { exampleFundedTx with script_gas_limit := 39 }
    ∧ specClaimedProvisionalLimit exampleNet.max_gas_per_tx
        (exampleExternalsOverhead10.max_gas exampleFundedTx.inputs
          exampleFundedTx.script) = 41
    ∧ (39 : Nat) ≠ 41 :=
  ⟨rfl, rfl, by decide⟩

/-- C9 — amended. When gas estimation runs (and the subtraction does not
underflow), the provisional script gas limit set on the dry-run transaction
equals `(max gas per tx / 2) − (overhead + 1)`: the rounding 1 is added to the
transaction's non-execution gas overhead before the subtraction, the division
by two is applied before subtracting, and the unsigned arithmetic is exact —
stated as `provisional + (overhead + 1) = max_gas_per_tx / 2`. -/
theorem c9_provisional_limit (ext : Externals) (net : NetworkInfo) (tx : Script)
    (h : ext.max_gas tx.inputs tx.script + 1 ≤ net.max_gas_per_tx / 2) :
    (dryRunTx ext net tx).script_gas_limit
      + (ext.max_gas tx.inputs tx.script + 1) = net.max_gas_per_tx / 2 := by
  simp only [dryRunTx]
  exact Nat.sub_add_cancel h

/-- C9 — witness: overhead 10, max gas per tx 100: the provisional limit 39
satisfies `39 + 11 = 50`. -/
theorem c9_provisional_limit_witness :
    (dryRunTx exampleExternalsOverhead10 exampleNet exampleFundedTx).script_gas_limit
      + (exampleExternalsOverhead10.max_gas exampleFundedTx.inputs
          exampleFundedTx.script + 1)
      = exampleNet.max_gas_per_tx / 2 :=
  c9_provisional_limit exampleExternalsOverhead10 exampleNet exampleFundedTx
    (by decide)

/-- C10 — confirmed. The provisional-limit computation performs the unguarded
`u64` subtraction `(max_gas_per_tx / 2) − (tx.max_gas + 1)`; the estimation
step is total only under `tx.max_gas + 1 ≤ max_gas_per_tx / 2`: otherwise the
subtraction underflows and the error branch is taken (modelled as
`arithmeticOverflow`; in the source this is the `u64` underflow of the
unguarded subtraction), while under the precondition a successful dry run
yields a result. -/
theorem c10_underflow_guard (ext : Externals) (net : NetworkInfo) (tx : Script)
    (p : Script → Except Nat Nat) (g : Nat) :
    (net.max_gas_per_tx / 2 < ext.max_gas tx.inputs tx.script + 1 →
      set_script_gas_limit_to_gas_used ext p net tx = .error .arithmeticOverflow)
    ∧ (ext.max_gas tx.inputs tx.script + 1 ≤ net.max_gas_per_tx / 2 →
        p (dryRunTx ext net tx) = .ok g →
        set_script_gas_limit_to_gas_used ext p net tx
          = .ok (((dryRunTx ext net tx).set_script_gas_limit g).withPoppedInput)) := by
  constructor
  · intro h
    rw [set_script_gas_limit_to_gas_used]
    rw [if_pos h]
  · intro h hp
    rw [set_script_gas_limit_to_gas_used]
    rw [if_neg (by omega)]
    simp only [hp]

/-- C10 — witness: overhead 60 underflows against `100 / 2` and errors;
overhead 10 with a successful dry run reporting 7 returns a transaction. -/
theorem c10_underflow_guard_witness :
    set_script_gas_limit_to_gas_used exampleExternalsOverhead60 exampleProvider7
        exampleNet exampleFundedTx = .error .arithmeticOverflow
    ∧ set_script_gas_limit_to_gas_used exampleExternalsOverhead10 exampleProvider7
        exampleNet exampleFundedTx
      = .ok (((dryRunTx exampleExternalsOverhead10 exampleNet
          exampleFundedTx).set_script_gas_limit 7).withPoppedInput) :=
  ⟨(c10_underflow_guard exampleExternalsOverhead60 exampleNet exampleFundedTx
      exampleProvider7 7).1 (by decide),
   (c10_underflow_guard exampleExternalsOverhead10 exampleNet exampleFundedTx
      exampleProvider7 7).2 (by decide) rfl⟩

end TxBuilders
